import Mathlib

/-!
Verification development for the storage-backend abstraction package
(`backends`): error taxonomy (`errors.go`), the document-store pattern
compiler (`mongodb.go`), the wide-column repository operations
(`dynamodb.go` and its later revision), the repository/backend lifecycle
(`backends.go`), and the wide-column pattern compiler (whose
implementation is referenced by `dynamodb_test.go`).

Go source is embedded shallowly: Go maps become association lists, the
`error` interface becomes the inductive `GoError` (which records whether
an error value is a classified `BackendErrorInfo` or a bare
`fmt.Errorf`-style error), panics become `Option.none`, and unbounded
loops take an explicit fuel argument (`none` = the loop did not finish
within the fuel).
-/

namespace Backends

/-! ## Error taxonomy (`errors.go`) -/

/-- A Go `error` value as this package sees it: either a classified
`BackendErrorInfo` (with its `Message` and `details` fields) built by one
of the error-class factories, or a bare error (e.g. `fmt.Errorf`,
`mgo.ErrNotFound`) carrying only its `Error()` string. -/
inductive GoError : Type where
  | classed (message : String) (details : String)
  | plain (msg : String)
  deriving DecidableEq, Repr

/-- `Error()` of a Go error value: for `BackendErrorInfo` this returns the
`Message` field (`errors.go` line 15-20); for a bare error, its string. -/
def GoError.errorMsg : GoError → String
  | .classed message _ => message
  | .plain msg => msg

/-- Model of `toString(args)` as the factories call it (`errors.go` line
37-43 and 75-79): the variadic slice is passed as a single operand, so the
result is `fmt.Sprint([]string{fmt.Sprintf("%v", args)})`, i.e. the
space-joined arguments wrapped in two layers of brackets. Arguments are
modelled already stringified (Go converts each argument via `Error()`,
identity, or `%v` before joining). -/
def goArgsToString (args : List String) : String :=
  "[[" ++ String.intercalate " " args ++ "]]"

/-- `ErrorClass(message)` (`errors.go` line 36-43): a factory producing
`BackendErrorInfo` values whose `Message` is the fixed classification
string and whose `details` stringify the arguments. -/
def errorClass (message : String) : List String → GoError :=
  fun args => .classed message (goArgsToString args)

/-- `ErrNotFound` (`errors.go` line 66). -/
def errNotFound : List String → GoError := errorClass "not found"

/-- `ErrAlreadyExists` (`errors.go` line 69). -/
def errAlreadyExists : List String → GoError := errorClass "already exists"

/-- `ErrInvalidInput` (`errors.go` line 72). -/
def errInvalidInput : List String → GoError := errorClass "invalid input"

/-- `ErrBackendError` (`errors.go` line 75-79): the stringified arguments
become the `Message` itself; there is no fixed classification string. -/
def errBackendError (args : List String) : GoError :=
  .classed (goArgsToString args) ""

/-- `IsErrorOfType(err, backendErr)` (`errors.go` line 82-84): compares
the two `Error()` strings. -/
def isErrorOfType (err backendErr : GoError) : Bool :=
  err.errorMsg == backendErr.errorMsg

/-- `IsErrNotFound` (`errors.go` line 87-89). -/
def isErrNotFound (err : GoError) : Bool :=
  isErrorOfType err (errNotFound [""])

/-- `IsErrAlreadyExistis` (`errors.go` line 92-94). -/
def isErrAlreadyExistis (err : GoError) : Bool :=
  isErrorOfType err (errAlreadyExists [""])

/-- `IsErrInvalidInput` (`errors.go` line 97-99). -/
def isErrInvalidInput (err : GoError) : Bool :=
  isErrorOfType err (errInvalidInput [""])

/-! ## Document-store pattern compiler (`mongodb.go` line 402-432) -/

/-- The rune loop of `toMongoPattern`, with the `prev` rune threaded
through exactly as in the Go code: an unescaped `%` becomes `.*`, the pair
`%%` becomes a literal `%`, every other rune (except NUL, which the Go
code filters with `r != '\000'`) is copied; a pending `%` at the end of
the input emits a final `.*`. -/
def toMongoPatternGo : Char → List Char → String
  | prev, [] => if prev = '%' then ".*" else ""
  | prev, r :: rest =>
    if r = '%' then
      if prev = '%' then "%" ++ toMongoPatternGo '\x00' rest
      else toMongoPatternGo '%' rest
    else
      (if prev = '%' then ".*" else "")
        ++ (if r ≠ '\x00' then String.singleton r else "")
        ++ toMongoPatternGo r rest

/-- `toMongoPattern(pattern)` (`mongodb.go` line 402-432). Note: this
revision adds no `^`/`$` anchors (its test `TestToMongoPattern` in the
package expects e.g. `toMongoPattern("not-changed") = "not-changed"`). -/
def toMongoPattern (pattern : String) : String :=
  toMongoPatternGo '\x00' pattern.toList

/-- A pattern character that is neither the wildcard `%` nor NUL (the two
runes the `toMongoPattern` loop treats specially). -/
def plainChar (c : Char) : Bool :=
  c != '%' && c != '\x00'

/-- A pattern string made only of plain characters. -/
def plainString (s : String) : Bool :=
  s.toList.all plainChar

theorem toMongoPatternGo_plain (l : List Char) (c : Char)
    (hl : l.all plainChar = true) (hc : c ≠ '%') :
    toMongoPatternGo c l = String.mk l := by
  induction l generalizing c with
  | nil =>
    rw [toMongoPatternGo, if_neg hc]
  | cons r rest ih =>
    simp only [List.all_cons, Bool.and_eq_true, plainChar, bne_iff_ne,
      ne_eq] at hl
    obtain ⟨⟨hr1, hr2⟩, hrest⟩ := hl
    rw [toMongoPatternGo, if_neg hr1, if_neg hc, if_pos hr2,
      ih r hrest hr1]
    show String.mk ([] ++ ([r] ++ rest)) = String.mk (r :: rest)
    rfl

theorem toMongoPatternGo_afterPct (l : List Char)
    (hl : l.all plainChar = true) :
    toMongoPatternGo '%' l = ".*" ++ String.mk l := by
  cases l with
  | nil => rfl
  | cons r rest =>
    simp only [List.all_cons, Bool.and_eq_true, plainChar, bne_iff_ne,
      ne_eq] at hl
    obtain ⟨⟨hr1, hr2⟩, hrest⟩ := hl
    rw [toMongoPatternGo, if_neg hr1, if_pos rfl, if_pos hr2,
      toMongoPatternGo_plain rest r hrest hr1]
    show String.mk ('.' :: '*' :: ([r] ++ rest)) = _
    rfl

/-! ## Generic records, values and filters

The backend-neutral data model (§3 of the package documentation): records
are generic string-keyed maps, filters map a field either to a literal
value (exact match) or to a `$pattern` wildcard directive. Go maps are
embedded as association lists with unique keys. -/

/-- A scalar value stored in a record or used in a filter: Go strings,
integers, booleans, `time.Time` values (as an integer instant), BSON
object identifiers, and the nil interface value. -/
inductive Val : Type where
  | vStr (s : String)
  | vInt (n : Int)
  | vBool (b : Bool)
  | vTime (t : Int)
  | vObjId (s : String)
  | vNil
  deriving DecidableEq, Repr

/-- A generic record (`map[string]interface{}`). -/
abbrev Rec := List (String × Val)

/-- A filter entry: a literal value (exact match) or a
`{"$pattern": p}` wildcard directive. -/
inductive FilterVal : Type where
  | lit (v : Val)
  | pat (p : String)
  deriving DecidableEq, Repr

/-- The backend-neutral `Filter` type. -/
abbrev Filter := List (String × FilterVal)

/-- Go map lookup `m[k]` returning `ok`. -/
def lookupKey {α : Type} (l : List (String × α)) (k : String) : Option α :=
  match l.find? (fun kv => kv.1 == k) with
  | some kv => some kv.2
  | none => none

/-- Go map `delete(m, k)`. -/
def removeKey {α : Type} (l : List (String × α)) (k : String) :
    List (String × α) :=
  l.filter (fun kv => kv.1 != k)

/-- Go map assignment `m[k] = v` (keys stay unique). -/
def setKey {α : Type} (l : List (String × α)) (k : String) (v : α) :
    List (String × α) :=
  removeKey l k ++ [(k, v)]

theorem lookupKey_cons_self {α : Type} (k : String) (v : α)
    (rest : List (String × α)) :
    lookupKey ((k, v) :: rest) k = some v := by
  simp [lookupKey, List.find?]

/-! ## `RepositoryDefinitionMap` accessors (`backends.go` line 50-83) -/

/-- The dynamic value held in a `RepositoryDefinitionMap`
(`map[string]interface{}`): a Go `string`, `bool`, `int64`, a generic
`[]interface{}` slice, or a value of any other dynamic type. -/
inductive DynVal : Type where
  | dStr (s : String)
  | dBool (b : Bool)
  | dInt64 (n : Int)
  | dArr (elems : List DynVal)
  | dOther

/-- `RepositoryDefinitionMap` (`backends.go` line 50). -/
abbrev RepositoryDefinitionMap := List (String × DynVal)

/-- `GetIndexes` (`backends.go` line 52-62): a checked type assertion —
a present value that is not a `[]interface{}` falls through to the empty
result, so this accessor never panics. -/
def rdmGetIndexes (m : RepositoryDefinitionMap) : List DynVal :=
  match lookupKey m "indexes" with
  | some (.dArr elems) => elems
  | _ => []

/-- `GetName` (`backends.go` line 64-69): unchecked `name.(string)`
assertion; `none` models the Go panic on a present value of any other
dynamic type. -/
def rdmGetName (m : RepositoryDefinitionMap) : Option String :=
  match lookupKey m "name" with
  | none => some ""
  | some (.dStr s) => some s
  | some _ => none

/-- `EnableTTL` (`backends.go` line 71-76): unchecked `.(bool)`
assertion; `none` models the Go panic. -/
def rdmEnableTTL (m : RepositoryDefinitionMap) : Option Bool :=
  match lookupKey m "enableTtl" with
  | none => some false
  | some (.dBool b) => some b
  | some _ => none

/-- `GetTTL` (`backends.go` line 78-83): unchecked `.(int64)` assertion;
`none` models the Go panic (note even a plain Go `int` value panics). -/
def rdmGetTTL (m : RepositoryDefinitionMap) : Option Int :=
  match lookupKey m "ttl" with
  | none => some 0
  | some (.dInt64 n) => some n
  | some _ => none

/-! ## Repository and backend lifecycle (`backends.go` line 85-225)

The mutex acquisitions and the double-checked re-reads of
`DefineRepository` and `GetBackend` collapse in this sequential embedding:
the re-check after taking the lock reads the same cache as the fast path.
Builders are abstract: a repository builder is a function from the current
invocation count, so distinct invocations can produce distinct instances
and instance identity is observable. -/

/-- The state of a `RepositoriesBackend` (`backends.go` line 85-92) that
`DefineRepository` touches: the repository cache plus a counter of
repository-builder invocations (each invocation performs the remote
provisioning). -/
structure RepositoriesBackendState (R : Type) : Type where
  repositories : List (String × R)
  buildCalls : Nat
  deriving Repr

/-- `RepositoriesBackend.DefineRepository` (`backends.go` line 96-114):
fast-path cache check, (lock,) re-check, build, cache. The builder
receives the current invocation count, standing in for "a fresh instance
per provisioning call". -/
def defineRepository {R E : Type} (builder : Nat → Except E R)
    (st : RepositoriesBackendState R) (name : String) :
    Except E R × RepositoriesBackendState R :=
  match lookupKey st.repositories name with
  | some repo => (.ok repo, st)
  | none =>
    match builder st.buildCalls with
    | .error e => (.error e, { st with buildCalls := st.buildCalls + 1 })
    | .ok repo =>
      (.ok repo,
        { repositories := (name, repo) :: st.repositories,
          buildCalls := st.buildCalls + 1 })

/-- `RepositoriesBackend.GetRepository` (`backends.go` line 116-121):
pure cache lookup, failing with the bare error `"unknown repo"`; it never
provisions. -/
def getRepository {R : Type} (st : RepositoriesBackendState R)
    (name : String) : Except GoError R :=
  match lookupKey st.repositories name with
  | some repo => .ok repo
  | none => .error (.plain "unknown repo")

/-- The state of a `DefaultBackendManager` (`backends.go` line 153-159):
registered builders (abstracted to their eventual result), the backend
cache, and the per-type configuration (`some none` models a present but
nil `*config.DBInfo`). -/
structure ManagerState (B : Type) : Type where
  backendBuilders : List (String × Except GoError B)
  backends : List (String × B)
  dbConfig : List (String × Option Unit)
  deriving Repr

/-- `DefaultBackendManager.buildBackend` (`backends.go` line 201-215):
unregistered type and missing/nil configuration both fail with bare
`fmt.Errorf` errors; the backend cache is written only on success. -/
def buildBackend {B : Type} (st : ManagerState B) (t : String) :
    Except GoError B × ManagerState B :=
  match lookupKey st.backendBuilders t with
  | none => (.error (.plain "backend not supported"), st)
  | some bres =>
    match lookupKey st.dbConfig t with
    | none => (.error (.plain "backend not configured"), st)
    | some none => (.error (.plain "backend not configured"), st)
    | some (some _) =>
      match bres with
      | .error e => (.error e, st)
      | .ok b => (.ok b, { st with backends := (t, b) :: st.backends })

/-- `DefaultBackendManager.GetBackend` (`backends.go` line 161-177):
cache hit, else (lock, re-check,) build. -/
def getBackend {B : Type} (st : ManagerState B) (t : String) :
    Except GoError B × ManagerState B :=
  match lookupKey st.backends t with
  | some b => (.ok b, st)
  | none => buildBackend st t

/-- `DefaultBackendManager.SupportBackend` (`backends.go` line 179-182):
registers/overwrites the builder (the accompanying properties map is not
relevant to the claims and omitted). -/
def supportBackend {B : Type} (st : ManagerState B) (t : String)
    (builder : Except GoError B) : ManagerState B :=
  { st with backendBuilders := setKey st.backendBuilders t builder }

/-! ## Document-store repository operations (`mongodb.go`) -/

/-- A compiled MongoDB filter condition: exact equality or a `$regex`
pattern produced by `toMongoPattern`. -/
inductive MongoCond : Type where
  | mEq (v : Val)
  | mRegex (p : String)
  deriving DecidableEq, Repr

/-- `toMongoFilter(filter)` (`mongodb.go` line 384-400): a `$pattern`
directive compiles to the regex produced by `toMongoPattern`; every other
value is copied for exact matching. (The `"unknown filter specification"`
error branch is unreachable here because `FilterVal` models exactly the
two legal filter-entry shapes.) -/
def toMongoFilter (filter : Filter) : List (String × MongoCond) :=
  filter.map (fun kv =>
    (kv.1,
      match kv.2 with
      | .lit v => .mEq v
      | .pat p => .mRegex (toMongoPattern p)))

/-- `chunkLeads c s`: `c` is a prefix of `s` (helper for the model of
MongoDB's unanchored regex search over the dialect `toMongoPattern`
emits — literal chunks joined by `.*`). -/
def chunkLeads : List Char → List Char → Bool
  | [], _ => true
  | _ :: _, [] => false
  | a :: as, b :: bs => a == b && chunkLeads as bs

/-- Drop through `s` up to and including the first occurrence of the
chunk `c`, returning the remaining suffix (`none` if `c` never occurs). -/
def dropPastChunk (c : List Char) : List Char → Option (List Char)
  | [] => if chunkLeads c [] then some [] else none
  | a :: t =>
    if chunkLeads c (a :: t) then some ((a :: t).drop c.length)
    else dropPastChunk c t

/-- All chunks occur in `s` in order, left to right. -/
def chunksInOrder : List Char → List (List Char) → Bool
  | _, [] => true
  | s, c :: cs =>
    match dropPastChunk c s with
    | none => false
    | some rest => chunksInOrder rest cs

/-- Model of MongoDB's unanchored `$regex` search for the dialect this
revision of `toMongoPattern` emits (literal chunks joined by `.*`, no
anchors): the value matches when the chunks occur in it in order. -/
def mongoRegexSearch (p s : String) : Bool :=
  chunksInOrder s.toList ((p.splitOn ".*").map String.toList)

/-- One compiled condition holds of a record field. -/
def mongoCondMatch (r : Rec) (k : String) : MongoCond → Bool
  | .mEq v => lookupKey r k == some v
  | .mRegex p =>
    match lookupKey r k with
    | some (.vStr s) => mongoRegexSearch p s
    | _ => false

/-- A record matches the entire compiled MongoDB filter. -/
def mongoFilterMatches (mf : List (String × MongoCond)) (r : Rec) : Bool :=
  mf.all (fun kv => mongoCondMatch r kv.1 kv.2)

/-- A record matches a *raw* (uncompiled) `Filter` used directly as a
MongoDB query, as `MongoCollection.GetOne` does: literal entries match by
equality; a `$pattern` directive is an ordinary subdocument to MongoDB and
never equals a stored scalar. -/
def rawFilterMatches (filter : Filter) (r : Rec) : Bool :=
  filter.all (fun kv =>
    match kv.2 with
    | .lit v => lookupKey r kv.1 == some v
    | .pat _ => false)

/-- `bson.IsObjectIdHex`: 24 hexadecimal characters. -/
def isObjectIdHex (s : String) : Bool :=
  s.length == 24 &&
    s.toList.all (fun c =>
      c.isDigit || ('a' ≤ c && c ≤ 'f') || ('A' ≤ c && c ≤ 'F'))

/-- `stringToObjectID(object)` (`helper.go` line 92-105): if an `"id"`
key is present it is removed and, when it is a valid hex string, re-added
as `"_id"` holding the `bson.ObjectId`; an invalid hex string is an
error; `none` models the Go panic of the unchecked `id.(string)`
assertion on a non-string value. -/
def stringToObjectID (filter : Filter) :
    Option (Except GoError Filter) :=
  match lookupKey filter "id" with
  | none => some (.ok filter)
  | some (.lit (.vStr s)) =>
    if isObjectIdHex s then
      some (.ok (setKey (removeKey filter "id") "_id" (.lit (.vObjId s))))
    else
      some (.error
        (.plain "id is a invalid hex representation of an ObjectId"))
  | some _ => none

/-- The repository-definition view the concrete repositories consume
through the `RepositoryDefinition` interface (name, hash/range key, TTL
fields, custom-id flag). -/
structure RepoDef : Type where
  name : String := ""
  hashKey : String := ""
  rangeKey : String := ""
  enableTtl : Bool := false
  ttlAttribute : String := ""
  ttl : Int := 0
  customId : Bool := false
  deriving DecidableEq, Repr

/-- The `_id → id` hex post-processing `MongoCollection.GetOne` performs
on the fetched record (`mongodb.go` line 180-184): an unchecked
`record["_id"].(bson.ObjectId)` assertion — `none` models the panic when
`_id` is absent or not an ObjectId. -/
def mongoHexOne (d : RepoDef) (record : Rec) : Option Rec :=
  match lookupKey record "_id" with
  | some (.vObjId s) =>
    if d.customId then some (setKey record "_id" (.vStr s))
    else some (setKey record "id" (.vStr s))
  | _ => none

/-- `MongoCollection.GetOne` (`mongodb.go` line 163-192): optional
object-id conversion (errors returned bare), a `Find(filter).One` lookup
on the *raw* filter — note: no compilation through `toMongoFilter` and no
TTL condition — then the `_id` hex post-processing. `mgo.ErrNotFound` is
returned as-is (its `Error()` string is `"not found"`). The outer `none`
models a panic. -/
def mongoGetOne (d : RepoDef) (table : List Rec) (filter : Filter) :
    Option (Except GoError Rec) :=
  let conv : Option (Except GoError Filter) :=
    if d.customId then some (.ok filter) else stringToObjectID filter
  match conv with
  | none => none
  | some (.error e) => some (.error e)
  | some (.ok f) =>
    match (table.filter (rawFilterMatches f)).head? with
    | none => some (.error (.plain "not found"))
    | some record =>
      match mongoHexOne d record with
      | none => none
      | some record => some (.ok record)

/-- A total order on field values used to model `mgo`'s `Sort`. -/
def valLe : Val → Val → Bool
  | .vStr a, .vStr b => a ≤ b
  | .vInt a, .vInt b => a ≤ b
  | .vTime a, .vTime b => a ≤ b
  | .vBool a, .vBool b => !a || b
  | .vObjId a, .vObjId b => a ≤ b
  | .vNil, _ => true
  | _, _ => true

/-- Stable insertion of `x` into `l` under `le`. -/
def insertStable {α : Type} (le : α → α → Bool) (x : α) :
    List α → List α
  | [] => [x]
  | y :: ys => if le y x then y :: insertStable le x ys else x :: y :: ys

/-- Stable insertion sort. -/
def sortStable {α : Type} (le : α → α → Bool) : List α → List α
  | [] => []
  | x :: xs => insertStable le x (sortStable le xs)

/-- Record comparison by one field, optionally descending (`mgo`'s
`Sort(order)` with the `"-"` prefix for `sorting == "desc"`). -/
def recFieldLe (field : String) (desc : Bool) (a b : Rec) : Bool :=
  let va := (lookupKey a field).getD .vNil
  let vb := (lookupKey b field).getD .vNil
  if desc then valLe vb va else valLe va vb

/-- The `_id → id` hex post-processing of `MongoCollection.GetAll`
(`mongodb.go` line 237-271): this loop uses a *checked* assertion, so a
record whose `_id` is absent or not an ObjectId passes through
unchanged. -/
def mongoHexAll (d : RepoDef) (record : Rec) : Rec :=
  match lookupKey record "_id" with
  | some (.vObjId s) =>
    if d.customId then setKey record "_id" (.vStr s)
    else removeKey (setKey record "id" (.vStr s)) "_id"
  | _ => record

/-- `MongoCollection.GetAll` (`mongodb.go` line 195-234): object-id
conversion (wrapped `ErrInvalidInput` on failure), filter compilation via
`toMongoFilter`, optional one-field sort, `Skip(offset)` when
`offset ≠ 0`, `Limit(limit)` when `limit ≠ 0`, then the `_id → id`
post-processing of each row. `none` models the panic in
`stringToObjectID`. -/
def mongoGetAll (d : RepoDef) (table : List Rec) (filter : Filter)
    (order sorting : String) (limit offset : Nat) :
    Option (Except GoError (List Rec)) :=
  let conv : Option (Except GoError Filter) :=
    if d.customId then some (.ok filter) else stringToObjectID filter
  match conv with
  | none => none
  | some (.error e) => some (.error (errInvalidInput [e.errorMsg]))
  | some (.ok f) =>
    let mf := toMongoFilter f
    let matched := table.filter (mongoFilterMatches mf)
    let sorted :=
      if order = "" then matched
      else sortStable (recFieldLe order (sorting == "desc")) matched
    let afterSkip := if offset ≠ 0 then sorted.drop offset else sorted
    let res := if limit ≠ 0 then afterSkip.take limit else afterSkip
    some (.ok (res.map (mongoHexAll d)))

/-! ## Wide-column repository operations (`dynamodb.go`, and the later
revision of the same file shipped alongside it)

`GetOne` and `GetAll` build a scan filter expression of one `$ = ?`
condition per filter entry plus, when TTL is enabled, one `$ > ?`
condition on the TTL attribute against `time.Now()`; the conditions are
joined with `AND`. Scans are modelled over the table as a list of rows in
scan order, with row indices as DynamoDB keys: a request evaluates at
most `searchLimit` rows after the exclusive start key, applies the filter
expression to the evaluated rows, and reports a `LastEvaluatedKey`
exactly when it stopped because the search limit was reached (the guregu
iterator issues a single request when a search limit is set). -/

/-- A compiled wide-column scan condition. -/
inductive DynCond : Type where
  | dynEq (field : String) (v : FilterVal)
  | dynGtTime (field : String) (t : Int)
  deriving DecidableEq, Repr

/-- The conditions `GetOne`/`GetAll` build (`dynamodb.go` line 257-269 and
297-309): one equality per filter entry, plus the implicit
`ttlAttribute > time.Now()` condition when TTL is enabled. -/
def dynamoScanConds (d : RepoDef) (now : Int) (filter : Filter) :
    List DynCond :=
  filter.map (fun kv => .dynEq kv.1 kv.2) ++
    (if d.enableTtl then [.dynGtTime d.ttlAttribute now] else [])

/-- One scan condition holds of a row. A `$pattern` directive used as an
equality value is a subdocument and never equals a stored scalar; the
`>` comparison holds only between two time values. -/
def dynCondHolds (r : Rec) : DynCond → Bool
  | .dynEq k (.lit v) => lookupKey r k == some v
  | .dynEq _ (.pat _) => false
  | .dynGtTime k t =>
    match lookupKey r k with
    | some (.vTime u) => t < u
    | _ => false

/-- A row passes the whole `AND`-joined filter expression. -/
def dynRowMatches (conds : List DynCond) (r : Rec) : Bool :=
  conds.all (dynCondHolds r)

/-- A single scan request/iterator: the matching rows it buffered, and
its `LastEvaluatedKey` (a row index). -/
structure ScanIter : Type where
  buffer : List Rec
  lek : Option Nat
  deriving Repr

/-- One DynamoDB scan request over the table: evaluate at most
`searchLimit` rows after the exclusive start key `startAfter`, filter
them with `conds` (`none` = no filter expression), and report a
`LastEvaluatedKey` exactly when the request stopped because it evaluated
`searchLimit` rows. -/
def scanRequest (table : List Rec) (startAfter : Option Nat)
    (searchLimit : Nat) (conds : Option (List DynCond)) : ScanIter :=
  let startIdx := match startAfter with | none => 0 | some k => k + 1
  let rest := table.drop startIdx
  let evaluated := rest.take searchLimit
  let buffer :=
    match conds with
    | none => evaluated
    | some cs => evaluated.filter (dynRowMatches cs)
  let lek :=
    if evaluated.length = searchLimit then
      some (startIdx + searchLimit - 1)
    else none
  ⟨buffer, lek⟩

/-- `DynamoCollection.GetOne` (`dynamodb.go` line 252-286): a scan with
the compiled conditions limited to one result; `nil` results fail
`ErrNotFound("Record not found")`, otherwise the first row is returned. -/
def dynamoGetOne (d : RepoDef) (now : Int) (table : List Rec)
    (filter : Filter) : Except GoError Rec :=
  let conds := dynamoScanConds d now filter
  match (table.filter (dynRowMatches conds)).head? with
  | none => .error (errNotFound ["Record not found"])
  | some r => .ok r

/-- The `GetAll` iterator loop (`dynamodb.go` line 317-335): take one row
from the current iterator (`Next`); stop when the iterator is empty or
`limit` is reached; after each appended row replace the iterator with a
fresh *unfiltered* scan of one row starting from the previous iterator's
`LastEvaluatedKey`. Fuel bounds the loop; `none` = the loop did not
finish within the fuel. -/
def dynamoGetAllLoop (table : List Rec) (limit : Nat) :
    Nat → ScanIter → Nat → List Rec → Option (List Rec)
  | 0, _, _, _ => none
  | fuel + 1, itr, i, acc =>
    match itr.buffer with
    | [] => some acc.reverse
    | r :: _ =>
      if limit ≠ 0 && decide (i ≥ limit) then some acc.reverse
      else
        dynamoGetAllLoop table limit fuel
          (scanRequest table itr.lek 1 none) (i + 1) (r :: acc)

/-- `DynamoCollection.GetAll` (`dynamodb.go` line 289-338): compiled
conditions as in `GetOne`; `startFrom = offset + 1` when `offset ≠ 0`
else `1`; a first filtered scan with search limit `startFrom`, then the
iterator loop above. -/
def dynamoGetAll (d : RepoDef) (now : Int) (table : List Rec)
    (filter : Filter) (limit offset : Nat) (fuel : Nat) :
    Option (List Rec) :=
  let conds := dynamoScanConds d now filter
  let startFrom := if offset ≠ 0 then offset + 1 else 1
  dynamoGetAllLoop table limit fuel
    (scanRequest table none startFrom (some conds)) 0 []

/-- Two rows carry the same primary key for definition `d`: equal hash
key attribute values and, when a range key is declared, equal range key
attribute values. The conditional `attribute_not_exists(hashKey)` put
condition fails exactly when an item with the same primary key already
exists (the existing item always carries its own hash key attribute). -/
def samePrimaryKey (d : RepoDef) (a b : Rec) : Bool :=
  lookupKey a d.hashKey == lookupKey b d.hashKey &&
    (d.rangeKey == "" || lookupKey a d.rangeKey == lookupKey b d.rangeKey)

/-- Set every payload field except the hash and range keys on a row
(the update loop of `Save`, `query.Set(k, v)` for `k` outside the
keys). -/
def applyPayload (d : RepoDef) (payload : Rec) (r : Rec) : Rec :=
  payload.foldl
    (fun acc kv =>
      if kv.1 ≠ d.hashKey ∧ kv.1 ≠ d.rangeKey then setKey acc kv.1 kv.2
      else acc)
    r

/-- The create-path payload preparation of the later revision's `Save`:
`id := genId` only when the payload has no `"id"` yet, then the TTL
expiry stamp `ttlAttribute := now + ttl` when TTL is enabled. -/
def dynamoCreatePayload (d : RepoDef) (now : Int) (genId : String)
    (payload : Rec) : Rec :=
  let p1 :=
    if (lookupKey payload "id").isSome then payload
    else setKey payload "id" (.vStr genId)
  if d.enableTtl then setKey p1 d.ttlAttribute (.vTime (now + d.ttl))
  else p1

/-- `DynamoCollection.Save` of the later revision (the one whose create
path generates an identifier only when the payload has none): create
(`filter = none`) assigns `id := genId` only if absent, stamps
`ttlAttribute := now + ttl` when TTL is enabled, and performs the
conditional put, failing `ErrAlreadyExists("record already exists!")`
when a row with the same primary key exists; update (`filter = some _`)
resolves the target row via `GetOne` and sets the non-key payload fields
on it. Returns the resulting object and the new table. -/
def dynamoSave (d : RepoDef) (now : Int) (genId : String)
    (table : List Rec) (payload : Rec) (filter : Option Filter) :
    Except GoError (Rec × List Rec) :=
  match filter with
  | none =>
    let p2 := dynamoCreatePayload d now genId payload
    if table.any (samePrimaryKey d p2) then
      .error (errAlreadyExists ["record already exists!"])
    else .ok (p2, table ++ [p2])
  | some f =>
    match dynamoGetOne d now table f with
    | .error e => .error e
    | .ok res =>
      let updated := applyPayload d payload res
      .ok (updated,
        table.map (fun r => if samePrimaryKey d r res then updated else r))

/-- `DynamoCollection.DeleteOne` (`dynamodb.go` line 425-453): resolve
the row via `GetOne`, then delete by its primary key; a delete that
removed nothing surfaces `dynamo.ErrNotFound` wrapped in `ErrNotFound`. -/
def dynamoDeleteOne (d : RepoDef) (now : Int) (table : List Rec)
    (filter : Filter) : Except GoError Unit × List Rec :=
  match dynamoGetOne d now table filter with
  | .error e => (.error e, table)
  | .ok res =>
    let remaining := table.filter (fun r => !(samePrimaryKey d r res))
    if remaining.length = table.length then
      (.error (errNotFound ["dynamo: no item found"]), table)
    else (.ok (), remaining)

/-- The delete-one-page inner loop of the later revision's `DeleteAll`:
for each returned row build the primary-key filter
(`NewFilter().Match(hashKey, row[hashKey])`, plus the range key when
declared) and call `DeleteOne`, stopping at the first error. -/
def dynamoDeleteEach (d : RepoDef) (now : Int) :
    List Rec → List Rec → Except GoError Unit × List Rec
  | [], table => (.ok (), table)
  | row :: rows, table =>
    let delFilter : Filter :=
      [(d.hashKey, .lit ((lookupKey row d.hashKey).getD .vNil))] ++
        (if d.rangeKey ≠ "" then
          [(d.rangeKey, .lit ((lookupKey row d.rangeKey).getD .vNil))]
        else [])
    match dynamoDeleteOne d now table delFilter with
    | (.error e, table) => (.error e, table)
    | (.ok _, table) => dynamoDeleteEach d now rows table

/-- The paging loop of the later revision's `DeleteAll`: fetch a page of
at most 128 rows via `GetAll` at the running offset, stop successfully on
an empty page, otherwise delete each returned row individually and
advance the offset by the page length. The inner `GetAll` loop gets fuel
130, which covers its at most 129 iterations when `limit = 128`. -/
def dynamoDeleteAllLoop (d : RepoDef) (now : Int) (filter : Filter) :
    Nat → List Rec → Nat → Option (Except GoError Unit × List Rec)
  | 0, _, _ => none
  | fuel + 1, table, offset =>
    match dynamoGetAll d now table filter 128 offset 130 with
    | none => none
    | some results =>
      if results.length = 0 then some (.ok (), table)
      else
        match dynamoDeleteEach d now results table with
        | (.error e, table) => some (.error e, table)
        | (.ok _, table) =>
          dynamoDeleteAllLoop d now filter fuel table
            (offset + results.length)

/-- `DynamoCollection.DeleteAll` of the later revision: a filter that
does not pin the hash key fails
`ErrInvalidInput("range hash key must be provided")` before touching any
row; otherwise the paging loop runs with batch size 128. -/
def dynamoDeleteAll (d : RepoDef) (now : Int) (table : List Rec)
    (filter : Filter) (fuel : Nat) :
    Option (Except GoError Unit × List Rec) :=
  if (lookupKey filter d.hashKey).isNone then
    some (.error (errInvalidInput ["range hash key must be provided"]),
      table)
  else dynamoDeleteAllLoop d now filter fuel table 0

/-- Modelled from the spec: §4.5 `DeleteAll` for the wide-column backend,
written from the spec's words alone — "requires the filter to at least
pin the backend's hash key (primary key), failing `InvalidInput`
otherwise", and otherwise "pages through `GetAll` in fixed-size batches,
deleting each matched row individually by primary key, continuing until a
page returns zero rows". Used as the refinement comparison for the
source-derived `dynamoDeleteAll`. -/
def deleteAllSpecModel (d : RepoDef) (now : Int) (table : List Rec)
    (filter : Filter) (fuel : Nat) :
    Option (Except GoError Unit × List Rec) :=
  if (lookupKey filter d.hashKey).isNone then
    some (.error (errInvalidInput ["range hash key must be provided"]),
      table)
  else specPages fuel table 0
where
  /-- Delete one fetched row by its primary key. -/
  specDeleteRow (table : List Rec) (row : Rec) :
      Except GoError Unit × List Rec :=
    let keyFilter : Filter :=
      [(d.hashKey, .lit ((lookupKey row d.hashKey).getD .vNil))] ++
        (if d.rangeKey ≠ "" then
          [(d.rangeKey, .lit ((lookupKey row d.rangeKey).getD .vNil))]
        else [])
    dynamoDeleteOne d now table keyFilter
  /-- Delete every row of the current page. -/
  specDeletePage : List Rec → List Rec → Except GoError Unit × List Rec
    | [], table => (.ok (), table)
    | row :: rows, table =>
      match specDeleteRow table row with
      | (.error e, table) => (.error e, table)
      | (.ok _, table) => specDeletePage rows table
  /-- Page through `GetAll` in fixed-size batches until a page returns
  zero rows. -/
  specPages : Nat → List Rec → Nat → Option (Except GoError Unit × List Rec)
    | 0, _, _ => none
    | fuel + 1, table, offset =>
      match dynamoGetAll d now table filter 128 offset 130 with
      | none => none
      | some page =>
        if page.length = 0 then some (.ok (), table)
        else
          match specDeletePage page table with
          | (.error e, table) => some (.error e, table)
          | (.ok _, table) =>
            specPages fuel table (offset + page.length)

/-! ## Wide-column pattern compiler

The package's `tokenize` and `patternToDynamodbCondition` are referenced
only by `dynamodb_test.go` in the analyzed sources; the defining file is
absent. They are therefore modelled from the spec (§4.2) and validated
below against every vector of `TestTokenize` and
`TestPatternToDynamoDBCondition`. -/

/-- Modelled from the spec: the §4.2 tokenization scan of `tokenize`
(whose implementation is missing from the analyzed sources; only its test
is present). State: `pending` records a just-seen `%` that may either be
a wildcard boundary or the first half of an escaped `%%`; `cur` is the
current token accumulated in reverse. A boundary flushes the current
token when non-empty, so leading/trailing boundaries produce no empty
tokens; `%%` collapses to a literal `%` inside the current token. -/
def tokenizeLoop : List Char → Bool → List Char → List String
  | [], _, cur => if cur.isEmpty then [] else [String.mk cur.reverse]
  | c :: rest, pending, cur =>
    if c = '%' then
      if pending then tokenizeLoop rest false ('%' :: cur)
      else tokenizeLoop rest true cur
    else
      if pending then
        (if cur.isEmpty then [] else [String.mk cur.reverse]) ++
          tokenizeLoop rest false [c]
      else tokenizeLoop rest false (c :: cur)

/-- Modelled from the spec: `tokenize(pattern)` (§4.2). -/
def tokenize (p : String) : List String :=
  tokenizeLoop p.toList false []

/-- Modelled from the spec: whether the pattern contains an unescaped
`%` wildcard boundary (a `%` not part of an escaped `%%`). -/
def hasWildcardLoop : List Char → Bool → Bool
  | [], pending => pending
  | c :: rest, pending =>
    if c = '%' then
      if pending then hasWildcardLoop rest false
      else hasWildcardLoop rest true
    else if pending then true
    else hasWildcardLoop rest false

/-- Modelled from the spec: the pattern contains at least one wildcard
boundary. -/
def hasWildcard (p : String) : Bool :=
  hasWildcardLoop p.toList false

/-- Modelled from the spec: the character list starts with an unescaped
`%` (a leading `%` not immediately followed by another `%`). -/
def startsWithWildcardChars : List Char → Bool
  | [] => false
  | c :: rest =>
    if c = '%' then
      match rest with
      | [] => true
      | c2 :: _ => if c2 = '%' then false else true
    else false

/-- Modelled from the spec: the pattern starts with an unescaped `%`. -/
def startsWithWildcard (p : String) : Bool :=
  startsWithWildcardChars p.toList

/-- The `patternCondition` value of `dynamodb_test.go` line 94-110:
a condition keyword (`EQ`, `BEGINS_WITH`, `CONTAINS`) and its value. -/
structure PatternCondition : Type where
  condition : String
  value : String
  deriving DecidableEq, Repr

/-- Modelled from the spec: `patternToDynamodbCondition(pattern)`
(§4.2 wide-column compilation; the implementation is missing from the
analyzed sources, only `dynamodb_test.go` references it). No wildcard →
one `EQUALS` on the unescaped literal; a leading wildcard → every token
becomes a `CONTAINS`; otherwise the first token is a `BEGINS_WITH` and
the remaining tokens `CONTAINS`, in order; a pattern of only wildcards →
zero conditions. -/
def patternToDynamodbCondition (p : String) : List PatternCondition :=
  let tokens := tokenize p
  if !hasWildcard p then
    tokens.map (fun t => ⟨"EQ", t⟩)
  else
    match tokens with
    | [] => []
    | t :: rest =>
      if startsWithWildcard p then
        (t :: rest).map (fun t => ⟨"CONTAINS", t⟩)
      else
        ⟨"BEGINS_WITH", t⟩ :: rest.map (fun t => ⟨"CONTAINS", t⟩)

/-- The spec-modelled `tokenize` reproduces every vector of
`TestTokenize` (`dynamodb_test.go` line 7-74). -/
theorem tokenize_matches_TestTokenize :
    tokenize "abcde" = ["abcde"] ∧
    tokenize "%abcde" = ["abcde"] ∧
    tokenize "abcde%" = ["abcde"] ∧
    tokenize "%abcde%" = ["abcde"] ∧
    tokenize "%%abcde" = ["%abcde"] ∧
    tokenize "abcde%%" = ["abcde%"] ∧
    tokenize "ab%de" = ["ab", "de"] ∧
    tokenize "ab%de%gh" = ["ab", "de", "gh"] := by
  decide

/-- The spec-modelled `patternToDynamodbCondition` reproduces every
positively asserted vector of `TestPatternToDynamoDBCondition`
(`dynamodb_test.go` line 112-196), and on `"%%ab%cd%%"` produces the
`BEGINS_WITH "%ab"`/`CONTAINS "cd%"` pair named there. -/
theorem patternToDynamodbCondition_matches_test :
    patternToDynamodbCondition "abcd" = [⟨"EQ", "abcd"⟩] ∧
    patternToDynamodbCondition "%abcd" = [⟨"CONTAINS", "abcd"⟩] ∧
    patternToDynamodbCondition "%abcd%" = [⟨"CONTAINS", "abcd"⟩] ∧
    patternToDynamodbCondition "abcd%" = [⟨"BEGINS_WITH", "abcd"⟩] ∧
    patternToDynamodbCondition "%%abcd" = [⟨"EQ", "%abcd"⟩] ∧
    patternToDynamodbCondition "%%abcd%%" = [⟨"EQ", "%abcd%"⟩] ∧
    patternToDynamodbCondition "%%ab%cd%%" =
      [⟨"BEGINS_WITH", "%ab"⟩, ⟨"CONTAINS", "cd%"⟩] := by
  decide

/-! ## Supporting lemmas for the pattern compiler claims -/

theorem toMongoPatternGo_trailingPct (l : List Char) (c : Char)
    (hl : l.all plainChar = true) (hc : c ≠ '%') :
    toMongoPatternGo c (l ++ ['%']) = String.mk l ++ ".*" := by
  induction l generalizing c with
  | nil =>
    rw [List.nil_append, toMongoPatternGo, if_pos rfl, if_neg hc,
      toMongoPatternGo, if_pos rfl]
    rfl
  | cons r rest ih =>
    simp only [List.all_cons, Bool.and_eq_true, plainChar, bne_iff_ne,
      ne_eq] at hl
    obtain ⟨⟨hr1, hr2⟩, hrest⟩ := hl
    rw [List.cons_append, toMongoPatternGo, if_neg hr1, if_neg hc,
      if_pos hr2, ih r hrest hr1]
    show String.mk ([] ++ ([r] ++ (rest ++ ['.', '*']))) = _
    show String.mk (r :: (rest ++ ['.', '*'])) =
      String.mk ((r :: rest) ++ ['.', '*'])
    rfl

theorem toMongoPatternGo_wrapPct (l : List Char)
    (hl : l.all plainChar = true) (hne : l ≠ []) :
    toMongoPatternGo '%' (l ++ ['%']) =
      ".*" ++ String.mk l ++ ".*" := by
  cases l with
  | nil => exact absurd rfl hne
  | cons r rest =>
    simp only [List.all_cons, Bool.and_eq_true, plainChar, bne_iff_ne,
      ne_eq] at hl
    obtain ⟨⟨hr1, hr2⟩, hrest⟩ := hl
    rw [List.cons_append, toMongoPatternGo, if_neg hr1, if_pos rfl,
      if_pos hr2, toMongoPatternGo_trailingPct rest r hrest hr1]
    show String.mk ('.' :: '*' :: ([r] ++ (rest ++ ['.', '*']))) = _
    show String.mk ('.' :: '*' :: (r :: (rest ++ ['.', '*']))) =
      String.mk (('.' :: '*' :: (r :: rest)) ++ ['.', '*'])
    rfl

/-! ## C1 — document-store pattern compilation -/

/-- C1 counterexample: the claim states that for every pattern `p`
containing no `%`, `toPattern(p)` is exactly `^p$`. On the concrete input
`"abc"` the compiler returns `"abc"` — it adds no `^`/`$` anchors — so
the claim is false as stated. -/
theorem toMongoPattern_anchor_cex :
    toMongoPattern "abc" = "abc" ∧ toMongoPattern "abc" ≠ "^abc$" := by
  decide

/-- C1 (amended): `toMongoPattern` replaces each unescaped `%` with `.*`
and each escaped `%%` with a literal `%`, passing other characters
through unchanged, and adds no anchors at either end: for every non-empty
pattern `p` of plain characters (no `%`, no NUL), `toPattern(p) = p`,
a leading wildcard contributes a leading `.*`, a trailing wildcard a
trailing `.*`, and a leading `%%` a literal `%`. -/
theorem toMongoPattern_amended (p : String)
    (hp : plainString p = true) (hne : p ≠ "") :
    toMongoPattern p = p ∧
    toMongoPattern ("%" ++ p) = ".*" ++ p ∧
    toMongoPattern (p ++ "%") = p ++ ".*" ∧
    toMongoPattern ("%" ++ p ++ "%") = ".*" ++ p ++ ".*" ∧
    toMongoPattern ("%%" ++ p) = "%" ++ p := by
  have hl : p.toList.all plainChar = true := hp
  have hnl : p.toList ≠ [] := by
    intro h
    apply hne
    cases p with
    | mk data =>
      have h2 : data = [] := h
      subst h2
      rfl
  have hnul : ('\x00' : Char) ≠ '%' := by decide
  refine ⟨?_, ?_, ?_, ?_, ?_⟩
  · show toMongoPatternGo '\x00' p.toList = p
    rw [toMongoPatternGo_plain p.toList '\x00' hl hnul]
    cases p with
    | mk data => rfl
  · show toMongoPatternGo '\x00' ("%" ++ p).toList = ".*" ++ p
    have : ("%" ++ p).toList = '%' :: p.toList := by
      simp [String.toList]
    rw [this, toMongoPatternGo, if_pos rfl, if_neg hnul,
      toMongoPatternGo_afterPct p.toList hl]
    cases p with
    | mk data => rfl
  · show toMongoPatternGo '\x00' (p ++ "%").toList = p ++ ".*"
    have : (p ++ "%").toList = p.toList ++ ['%'] := by
      simp [String.toList]
    rw [this, toMongoPatternGo_trailingPct p.toList '\x00' hl hnul]
    cases p with
    | mk data => rfl
  · show toMongoPatternGo '\x00' ("%" ++ p ++ "%").toList =
      ".*" ++ p ++ ".*"
    have : ("%" ++ p ++ "%").toList = '%' :: (p.toList ++ ['%']) := by
      simp [String.toList]
    rw [this, toMongoPatternGo, if_pos rfl, if_neg hnul,
      toMongoPatternGo_wrapPct p.toList hl hnl]
    cases p with
    | mk data => rfl
  · show toMongoPatternGo '\x00' ("%%" ++ p).toList = "%" ++ p
    have : ("%%" ++ p).toList = '%' :: '%' :: p.toList := by
      simp [String.toList]
    rw [this, toMongoPatternGo, if_pos rfl, if_neg hnul, toMongoPatternGo,
      if_pos rfl, if_pos rfl,
      toMongoPatternGo_plain p.toList '\x00' hl hnul]
    cases p with
    | mk data => rfl

/-- Witness for the amended C1 theorem at the concrete pattern `"abc"`. -/
theorem toMongoPattern_amended_witness :
    plainString "abc" = true ∧ ("abc" : String) ≠ "" ∧
    (toMongoPattern "abc" = "abc" ∧
      toMongoPattern ("%" ++ "abc") = ".*" ++ "abc" ∧
      toMongoPattern ("abc" ++ "%") = "abc" ++ ".*" ∧
      toMongoPattern ("%" ++ "abc" ++ "%") = ".*" ++ "abc" ++ ".*" ∧
      toMongoPattern ("%%" ++ "abc") = "%" ++ "abc") :=
  ⟨by decide, by decide, toMongoPattern_amended "abc" (by decide) (by decide)⟩

/-- The embedded `toMongoPattern` reproduces every vector of the
revision's own `TestToMongoPattern` (the unanchored test file). -/
theorem toMongoPattern_matches_its_test :
    toMongoPattern "not-changed" = "not-changed" ∧
    toMongoPattern "in the %middle" = "in the .*middle" ∧
    toMongoPattern "%at beginning" = ".*at beginning" ∧
    toMongoPattern "at end%" = "at end.*" ∧
    toMongoPattern "%start%middle and end%" = ".*start.*middle and end.*" ∧
    toMongoPattern "escape %% it" = "escape % it" ∧
    toMongoPattern "triple %%%" = "triple %.*" := by
  decide

/-! ## Association-list lemmas -/

theorem lookupKey_removeKey_self {α : Type} (l : List (String × α))
    (k : String) : lookupKey (removeKey l k) k = none := by
  induction l with
  | nil => rfl
  | cons kv rest ih =>
    by_cases h : kv.1 = k
    · simp only [removeKey, List.filter_cons, h, bne_self_eq_false]
      exact ih
    · have hb : (kv.1 != k) = true := by
        simp [bne_iff_ne, h]
      simp only [removeKey, List.filter_cons, hb]
      simp only [lookupKey, List.find?]
      have hb2 : (kv.1 == k) = false := by
        simp [h]
      rw [hb2]
      exact ih

theorem lookupKey_removeKey_other {α : Type} (l : List (String × α))
    (k k' : String) (h : k' ≠ k) :
    lookupKey (removeKey l k) k' = lookupKey l k' := by
  induction l with
  | nil => rfl
  | cons kv rest ih =>
    by_cases hk : kv.1 = k
    · have hb : (kv.1 != k) = false := by simp [hk]
      have hb2 : (kv.1 == k') = false := by
        simp [hk]
        exact fun he => h he.symm
      simp only [removeKey, List.filter_cons, hb]
      simp only [lookupKey, List.find?] at ih ⊢
      rw [hb2]
      exact ih
    · have hb : (kv.1 != k) = true := by simp [bne_iff_ne, hk]
      simp only [removeKey, List.filter_cons, hb]
      simp only [lookupKey, List.find?] at ih ⊢
      by_cases hk' : kv.1 = k'
      · simp [hk']
      · have hb2 : (kv.1 == k') = false := by simp [hk']
        rw [hb2]
        exact ih

theorem lookupKey_append {α : Type} (a b : List (String × α)) (k : String) :
    lookupKey (a ++ b) k =
      match lookupKey a k with
      | some v => some v
      | none => lookupKey b k := by
  induction a with
  | nil => simp [lookupKey]
  | cons kv rest ih =>
    simp only [lookupKey, List.find?, List.cons_append]
    by_cases h : kv.1 = k
    · simp [h]
    · have hb : (kv.1 == k) = false := by simp [h]
      rw [hb]
      exact ih

theorem lookupKey_setKey_same {α : Type} (l : List (String × α))
    (k : String) (v : α) : lookupKey (setKey l k v) k = some v := by
  rw [setKey, lookupKey_append, lookupKey_removeKey_self]
  simp [lookupKey, List.find?]

theorem lookupKey_setKey_other {α : Type} (l : List (String × α))
    (k k' : String) (v : α) (h : k' ≠ k) :
    lookupKey (setKey l k v) k' = lookupKey l k' := by
  rw [setKey, lookupKey_append]
  have hb : (k == k') = false := by
    simp
    exact fun he => h he.symm
  cases hl : lookupKey (removeKey l k) k' with
  | some w => rw [lookupKey_removeKey_other l k k' h] at hl; rw [hl]
  | none =>
    rw [lookupKey_removeKey_other l k k' h] at hl
    rw [hl]
    simp [lookupKey, List.find?, hb]

/-! ## C2 — `DefineRepository` idempotence -/

/-- C2: `DefineRepository` is idempotent per name: if a call returns a
repository, an immediately following call with the same name returns the
identical instance out of the cache without changing the state, and the
two calls together invoked the repository builder (which performs all
remote provisioning) at most once. -/
theorem defineRepository_idempotent {R E : Type} (builder : Nat → Except E R)
    (st : RepositoriesBackendState R) (name : String) (r : R)
    (st₁ : RepositoriesBackendState R)
    (h : defineRepository builder st name = (.ok r, st₁)) :
    defineRepository builder st₁ name = (.ok r, st₁) ∧
    st₁.buildCalls ≤ st.buildCalls + 1 := by
  unfold defineRepository at h ⊢
  cases hc : lookupKey st.repositories name with
  | some repo =>
    rw [hc] at h
    have hr : repo = r := by
      have := congrArg Prod.fst h
      simpa using this
    have hst : st = st₁ := by
      have := congrArg Prod.snd h
      simpa using this
    subst hr
    subst hst
    rw [hc]
    exact ⟨rfl, Nat.le_succ _⟩
  | none =>
    rw [hc] at h
    cases hb : builder st.buildCalls with
    | error e =>
      rw [hb] at h
      have := congrArg Prod.fst h
      simp at this
    | ok repo =>
      rw [hb] at h
      have hr : repo = r := by
        have := congrArg Prod.fst h
        simpa using this
      have hst :
          ({ repositories := (name, repo) :: st.repositories,
             buildCalls := st.buildCalls + 1 } :
            RepositoriesBackendState R) = st₁ := by
        have := congrArg Prod.snd h
        simpa using this
      subst hr
      rw [← hst]
      rw [lookupKey_cons_self]
      exact ⟨rfl, Nat.le_refl _⟩

/-- Witness for C2 at a concrete backend state: the first call builds and
caches, the second returns the identical instance with the provisioning
counter still at one. -/
theorem defineRepository_idempotent_witness :
    defineRepository (fun n => (.ok n : Except Unit Nat))
        ⟨[("users", 7)], 3⟩ "users" = (.ok 7, ⟨[("users", 7)], 3⟩) ∧
    (3 : Nat) ≤ 3 + 1 :=
  defineRepository_idempotent (fun n => (.ok n : Except Unit Nat))
    ⟨[("users", 7)], 3⟩ "users" 7 ⟨[("users", 7)], 3⟩ rfl

/-! ## C6 — `GetBackend` on an unregistered type -/

/-- C6 counterexample: the claim states `GetBackend` on an unregistered
backend type fails with the `InvalidInput` error class and never with a
bare unclassified error. On a manager with no registered builders,
`GetBackend("mongodb")` returns the bare `fmt.Errorf` error
`"backend not supported"`, which `IsErrorOfType`/`IsErrInvalidInput` do
not classify as `InvalidInput`. -/
theorem getBackend_unsupported_cex :
    getBackend (⟨[], [], []⟩ : ManagerState Unit) "mongodb" =
      (.error (.plain "backend not supported"), ⟨[], [], []⟩) ∧
    isErrorOfType (.plain "backend not supported") (errInvalidInput []) =
      false ∧
    isErrInvalidInput (.plain "backend not supported") = false :=
  ⟨rfl, rfl, rfl⟩

/-- C6 (amended): `GetBackend` on a backend type that is neither cached
nor registered fails with the *bare* (unclassified) error
`"backend not supported"`, and the manager state — in particular the
backend cache — is left unchanged by the failed call. -/
theorem getBackend_unregistered_amended {B : Type} (st : ManagerState B)
    (t : String) (hcache : lookupKey st.backends t = none)
    (hreg : lookupKey st.backendBuilders t = none) :
    getBackend st t = (.error (.plain "backend not supported"), st) := by
  unfold getBackend buildBackend
  rw [hcache, hreg]

/-- Witness for the amended C6 theorem on a manager that has a different
backend registered and cached. -/
theorem getBackend_unregistered_amended_witness :
    getBackend
        (⟨[("dynamodb", .ok ())], [("dynamodb", ())],
          [("dynamodb", some ())]⟩ : ManagerState Unit) "mongodb" =
      (.error (.plain "backend not supported"),
        ⟨[("dynamodb", .ok ())], [("dynamodb", ())],
          [("dynamodb", some ())]⟩) :=
  getBackend_unregistered_amended
    (⟨[("dynamodb", .ok ())], [("dynamodb", ())],
      [("dynamodb", some ())]⟩ : ManagerState Unit) "mongodb" rfl rfl

/-! ## C9 — `IsErrorOfType` semantics -/

/-- C9: `IsErrorOfType(err, class)` holds iff the two `Error()` strings
are equal; hence any two errors built by the same standard factory
(`ErrNotFound`, `ErrAlreadyExists`, `ErrInvalidInput`) with arbitrary
detail arguments are classified alike, while two `ErrBackendError`
instances compare equal exactly when their full message strings (the
stringified arguments) coincide — so `BackendError` is not discriminable
as a class, witnessed by two backend errors with different messages. -/
theorem isErrorOfType_spec :
    (∀ e₁ e₂ : GoError,
      isErrorOfType e₁ e₂ = (e₁.errorMsg == e₂.errorMsg)) ∧
    (∀ a b : List String,
      isErrorOfType (errNotFound a) (errNotFound b) = true) ∧
    (∀ a b : List String,
      isErrorOfType (errAlreadyExists a) (errAlreadyExists b) = true) ∧
    (∀ a b : List String,
      isErrorOfType (errInvalidInput a) (errInvalidInput b) = true) ∧
    (∀ a b : List String,
      (isErrorOfType (errBackendError a) (errBackendError b) = true ↔
        goArgsToString a = goArgsToString b)) ∧
    isErrorOfType (errBackendError ["x"]) (errBackendError ["y"]) =
      false := by
  refine ⟨fun e₁ e₂ => rfl, fun a b => ?_, fun a b => ?_, fun a b => ?_,
    fun a b => ?_, by decide⟩
  · simp [isErrorOfType, errNotFound, errorClass, GoError.errorMsg]
  · simp [isErrorOfType, errAlreadyExists, errorClass, GoError.errorMsg]
  · simp [isErrorOfType, errInvalidInput, errorClass, GoError.errorMsg]
  · simp [isErrorOfType, errBackendError, GoError.errorMsg]

/-! ## C10 — `RepositoryDefinitionMap` accessor totality -/

/-- C10: the `RepositoryDefinitionMap` accessors return the documented
zero value when the key is absent (shown via `removeKey`), while a
present value of an unexpected dynamic type makes `GetName`, `EnableTTL`
and `GetTTL` panic through their unchecked type assertions (the `none`
results and the `isNone` characterizations), so those three are total
only when present values have the expected types; `GetIndexes` uses a
checked assertion and never panics — a present value of the wrong type
yields the empty index set. -/
theorem rdm_accessors_spec (m : RepositoryDefinitionMap) :
    rdmGetName (removeKey m "name") = some "" ∧
    rdmEnableTTL (removeKey m "enableTtl") = some false ∧
    rdmGetTTL (removeKey m "ttl") = some 0 ∧
    rdmGetIndexes (removeKey m "indexes") = [] ∧
    ((rdmGetName m).isNone = true ↔
      ∃ v, lookupKey m "name" = some v ∧ ∀ s, v ≠ DynVal.dStr s) ∧
    ((rdmEnableTTL m).isNone = true ↔
      ∃ v, lookupKey m "enableTtl" = some v ∧ ∀ b, v ≠ DynVal.dBool b) ∧
    ((rdmGetTTL m).isNone = true ↔
      ∃ v, lookupKey m "ttl" = some v ∧ ∀ n, v ≠ DynVal.dInt64 n) ∧
    rdmGetName [("name", DynVal.dBool true)] = none ∧
    rdmEnableTTL [("enableTtl", DynVal.dStr "yes")] = none ∧
    rdmGetTTL [("ttl", DynVal.dOther)] = none ∧
    rdmGetIndexes [("indexes", DynVal.dStr "x")] = [] ∧
    rdmGetName [("name", DynVal.dStr "tokens")] = some "tokens" ∧
    rdmGetTTL [("ttl", DynVal.dInt64 86400)] = some 86400 := by
  refine ⟨?_, ?_, ?_, ?_, ?_, ?_, ?_, rfl, rfl, rfl, rfl, rfl, rfl⟩
  · rw [rdmGetName, lookupKey_removeKey_self]
  · rw [rdmEnableTTL, lookupKey_removeKey_self]
  · rw [rdmGetTTL, lookupKey_removeKey_self]
  · rw [rdmGetIndexes, lookupKey_removeKey_self]
  · rw [rdmGetName]
    cases h : lookupKey m "name" with
    | none =>
      exact ⟨fun hfalse => absurd hfalse (by decide),
        fun ⟨v', hv', _⟩ => by cases hv'⟩
    | some v =>
      cases v with
      | dStr s =>
        exact ⟨fun hfalse => absurd hfalse (by simp),
          fun ⟨v', hv', hne⟩ => by cases hv'; exact absurd rfl (hne s)⟩
      | dBool b =>
        exact ⟨fun _ => ⟨.dBool b, rfl, fun s hs => by cases hs⟩,
          fun _ => rfl⟩
      | dInt64 n =>
        exact ⟨fun _ => ⟨.dInt64 n, rfl, fun s hs => by cases hs⟩,
          fun _ => rfl⟩
      | dArr elems =>
        exact ⟨fun _ => ⟨.dArr elems, rfl, fun s hs => by cases hs⟩,
          fun _ => rfl⟩
      | dOther =>
        exact ⟨fun _ => ⟨.dOther, rfl, fun s hs => by cases hs⟩,
          fun _ => rfl⟩
  · rw [rdmEnableTTL]
    cases h : lookupKey m "enableTtl" with
    | none =>
      exact ⟨fun hfalse => absurd hfalse (by decide),
        fun ⟨v', hv', _⟩ => by cases hv'⟩
    | some v =>
      cases v with
      | dBool b =>
        exact ⟨fun hfalse => absurd hfalse (by simp),
          fun ⟨v', hv', hne⟩ => by cases hv'; exact absurd rfl (hne b)⟩
      | dStr s =>
        exact ⟨fun _ => ⟨.dStr s, rfl, fun b hb => by cases hb⟩,
          fun _ => rfl⟩
      | dInt64 n =>
        exact ⟨fun _ => ⟨.dInt64 n, rfl, fun b hb => by cases hb⟩,
          fun _ => rfl⟩
      | dArr elems =>
        exact ⟨fun _ => ⟨.dArr elems, rfl, fun b hb => by cases hb⟩,
          fun _ => rfl⟩
      | dOther =>
        exact ⟨fun _ => ⟨.dOther, rfl, fun b hb => by cases hb⟩,
          fun _ => rfl⟩
  · rw [rdmGetTTL]
    cases h : lookupKey m "ttl" with
    | none =>
      exact ⟨fun hfalse => absurd hfalse (by decide),
        fun ⟨v', hv', _⟩ => by cases hv'⟩
    | some v =>
      cases v with
      | dInt64 n =>
        exact ⟨fun hfalse => absurd hfalse (by simp),
          fun ⟨v', hv', hne⟩ => by cases hv'; exact absurd rfl (hne n)⟩
      | dStr s =>
        exact ⟨fun _ => ⟨.dStr s, rfl, fun n hn => by cases hn⟩,
          fun _ => rfl⟩
      | dBool b =>
        exact ⟨fun _ => ⟨.dBool b, rfl, fun n hn => by cases hn⟩,
          fun _ => rfl⟩
      | dArr elems =>
        exact ⟨fun _ => ⟨.dArr elems, rfl, fun n hn => by cases hn⟩,
          fun _ => rfl⟩
      | dOther =>
        exact ⟨fun _ => ⟨.dOther, rfl, fun n hn => by cases hn⟩,
          fun _ => rfl⟩

/-! ## C7 — implicit TTL condition on `GetOne` -/

/-- C7 counterexample: the claim states that for TTL-enabled definitions
`GetOne` adds an implicit condition on both implementations so only
records with a strictly-future TTL attribute are visible. At time `10`,
with a record whose TTL attribute is `5` (already expired), the
wide-column `GetOne` indeed fails `NotFound`, but the document-store
`GetOne` returns the expired record: its query is the raw filter with no
TTL condition. -/
theorem ttl_visibility_cex :
    dynamoGetOne ⟨"tokens", "", "", true, "expiry", 60, true⟩ 10
      [[("_id", .vObjId "aaaaaaaaaaaaaaaaaaaaaaaa"), ("id", .vStr "1"),
        ("expiry", .vTime 5)]]
      [("id", .lit (.vStr "1"))] =
      .error (errNotFound ["Record not found"]) ∧
    mongoGetOne ⟨"tokens", "", "", true, "expiry", 60, true⟩
      [[("_id", .vObjId "aaaaaaaaaaaaaaaaaaaaaaaa"), ("id", .vStr "1"),
        ("expiry", .vTime 5)]]
      [("id", .lit (.vStr "1"))] =
      some (.ok [("id", .vStr "1"), ("expiry", .vTime 5),
        ("_id", .vStr "aaaaaaaaaaaaaaaaaaaaaaaa")]) ∧
    ¬ (10 : Int) < 5 :=
  ⟨rfl, rfl, by decide⟩

/-- C7 (amended): for TTL-enabled definitions only the wide-column
`GetOne` adds the implicit additional condition — its compiled scan
filter is the equality conditions plus `ttlAttribute > now`, and any
record it returns has a TTL attribute strictly in the future — while the
document-store `GetOne` issues the raw filter unchanged: its result does
not depend on the definition's TTL fields at all (expiry there is left to
the backend-native TTL index created at provisioning). -/
theorem ttl_visibility_amended (d : RepoDef) (now : Int) (table : List Rec)
    (filter : Filter) (h : d.enableTtl = true) :
    dynamoScanConds d now filter =
      filter.map (fun kv => .dynEq kv.1 kv.2) ++
        [.dynGtTime d.ttlAttribute now] ∧
    (∀ r, dynamoGetOne d now table filter = .ok r →
      ∃ t, lookupKey r d.ttlAttribute = some (.vTime t) ∧ now < t) ∧
    (∀ ttl', mongoGetOne
      { d with enableTtl := false, ttlAttribute := "", ttl := ttl' }
      table filter = mongoGetOne d table filter) := by
  refine ⟨?_, ?_, fun ttl' => rfl⟩
  · rw [dynamoScanConds, if_pos h]
  · intro r hr
    rw [dynamoGetOne] at hr
    cases hfl : table.filter (dynRowMatches (dynamoScanConds d now filter))
      with
    | nil => rw [hfl] at hr; cases hr
    | cons a as =>
      rw [hfl] at hr
      have ha : a ∈ table.filter (dynRowMatches (dynamoScanConds d now filter)) := by
        rw [hfl]; exact List.mem_cons_self a as
      have hmatch : dynRowMatches (dynamoScanConds d now filter) a = true :=
        (List.mem_filter.mp ha).2
    -- `.ok a = .ok r` gives `a = r`
      have har : a = r := by
        cases hr; rfl
      have hcond : dynCondHolds a (.dynGtTime d.ttlAttribute now) = true := by
        have hmem : (DynCond.dynGtTime d.ttlAttribute now) ∈
            dynamoScanConds d now filter := by
          rw [dynamoScanConds, if_pos h]
          exact List.mem_append_right _ (List.mem_singleton.mpr rfl)
        exact List.all_eq_true.mp hmatch _ hmem
      subst har
      rw [dynCondHolds] at hcond
      cases hlk : lookupKey a d.ttlAttribute with
      | none => rw [hlk] at hcond; cases hcond
      | some v =>
        rw [hlk] at hcond
        cases v with
        | vTime u =>
          exact ⟨u, rfl, by exact_mod_cast of_decide_eq_true hcond⟩
        | vStr s => cases hcond
        | vInt n => cases hcond
        | vBool b => cases hcond
        | vObjId s => cases hcond
        | vNil => cases hcond

/-- Witness for the amended C7 theorem at a concrete TTL-enabled
definition, table and time. -/
theorem ttl_visibility_amended_witness :
    dynamoScanConds ⟨"tokens", "", "", true, "expiry", 60, true⟩ 10
        [("id", .lit (.vStr "1"))] =
      [("id", FilterVal.lit (.vStr "1"))].map
          (fun kv => .dynEq kv.1 kv.2) ++
        [.dynGtTime "expiry" 10] ∧
    (∀ r, dynamoGetOne ⟨"tokens", "", "", true, "expiry", 60, true⟩ 10
        [[("_id", .vObjId "aaaaaaaaaaaaaaaaaaaaaaaa"), ("id", .vStr "1"),
          ("expiry", .vTime 5)]]
        [("id", .lit (.vStr "1"))] = .ok r →
      ∃ t, lookupKey r "expiry" = some (.vTime t) ∧ (10 : Int) < t) ∧
    (∀ ttl', mongoGetOne ⟨"tokens", "", "", false, "", ttl', true⟩
        [[("_id", .vObjId "aaaaaaaaaaaaaaaaaaaaaaaa"), ("id", .vStr "1"),
          ("expiry", .vTime 5)]]
        [("id", .lit (.vStr "1"))] =
      mongoGetOne ⟨"tokens", "", "", true, "expiry", 60, true⟩
        [[("_id", .vObjId "aaaaaaaaaaaaaaaaaaaaaaaa"), ("id", .vStr "1"),
          ("expiry", .vTime 5)]]
        [("id", .lit (.vStr "1"))]) :=
  ttl_visibility_amended ⟨"tokens", "", "", true, "expiry", 60, true⟩ 10
    [[("_id", .vObjId "aaaaaaaaaaaaaaaaaaaaaaaa"), ("id", .vStr "1"),
      ("expiry", .vTime 5)]]
    [("id", .lit (.vStr "1"))] rfl

/-! ## C5 — `GetAll` offset/limit semantics -/

/-- Supporting lemma: the document-store `GetAll` (for a custom-id
definition and no ordering) returns exactly the matching records with the
first `offset` of them skipped, capped at `limit` when `limit ≠ 0` and
uncapped when `limit = 0` — the claimed offset/limit contract. -/
theorem mongoGetAll_drop_take (d : RepoDef) (table : List Rec)
    (filter : Filter) (limit offset : Nat) (hd : d.customId = true) :
    mongoGetAll d table filter "" "" limit offset =
      some (.ok
        ((if limit = 0 then
            (table.filter
              (mongoFilterMatches (toMongoFilter filter))).drop offset
          else
            ((table.filter
              (mongoFilterMatches (toMongoFilter filter))).drop
                offset).take limit).map
          (mongoHexAll d))) := by
  by_cases ho : offset = 0 <;> by_cases hl : limit = 0 <;>
    simp [mongoGetAll, hd, ho, hl]

/-- C5: at the concrete failing input — a two-row table whose rows both
match the filter, `offset = 1`, `limit = 1` — the claim requires the
first matching row to be skipped, i.e. the result `[r1]`. The
document-store `GetAll` returns `[r1]` as claimed, but the wide-column
`GetAll` returns `[r0]`: its first scan request evaluates `offset + 1`
rows and the iterator then yields the first match without skipping
anything (and its follow-up one-row scans drop the filter expression
entirely). -/
theorem dynamoGetAll_offset_bug :
    dynamoGetAll ⟨"t", "k", "", false, "", 0, false⟩ 0
      [[("k", .vStr "a"), ("u", .vStr "r0")],
       [("k", .vStr "a"), ("u", .vStr "r1")]]
      [("k", .lit (.vStr "a"))] 1 1 10 =
      some [[("k", .vStr "a"), ("u", .vStr "r0")]] ∧
    mongoGetAll ⟨"t", "k", "", false, "", 0, false⟩
      [[("k", .vStr "a"), ("u", .vStr "r0")],
       [("k", .vStr "a"), ("u", .vStr "r1")]]
      [("k", .lit (.vStr "a"))] "" "" 1 1 =
      some (.ok [[("k", .vStr "a"), ("u", .vStr "r1")]]) ∧
    ([("k", Val.vStr "a"), ("u", Val.vStr "r0")] : Rec) ≠
      [("k", .vStr "a"), ("u", .vStr "r1")] :=
  ⟨rfl, rfl, by decide⟩

/-! ## C3 — wide-column `DeleteAll` -/

theorem specDeletePage_eq (d : RepoDef) (now : Int) (rows table : List Rec) :
    deleteAllSpecModel.specDeletePage d now rows table =
      dynamoDeleteEach d now rows table := by
  induction rows generalizing table with
  | nil => rfl
  | cons row rest ih =>
    simp only [deleteAllSpecModel.specDeletePage, dynamoDeleteEach,
      deleteAllSpecModel.specDeleteRow]
    cases dynamoDeleteOne d now table
        ([(d.hashKey, .lit ((lookupKey row d.hashKey).getD .vNil))] ++
          (if d.rangeKey ≠ "" then
            [(d.rangeKey, .lit ((lookupKey row d.rangeKey).getD .vNil))]
          else [])) with
    | mk res tbl =>
      cases res with
      | error e => rfl
      | ok u => exact ih tbl

theorem specPages_eq (d : RepoDef) (now : Int) (filter : Filter)
    (fuel : Nat) (table : List Rec) (offset : Nat) :
    deleteAllSpecModel.specPages d now filter fuel table offset =
      dynamoDeleteAllLoop d now filter fuel table offset := by
  induction fuel generalizing table offset with
  | zero => rfl
  | succ f ih =>
    simp only [deleteAllSpecModel.specPages, dynamoDeleteAllLoop]
    cases dynamoGetAll d now table filter 128 offset 130 with
    | none => rfl
    | some page =>
      by_cases hp : page.length = 0
      · simp [hp]
      · simp only [if_neg hp]
        rw [specDeletePage_eq]
        cases dynamoDeleteEach d now page table with
        | mk res tbl =>
          cases res with
          | error e => rfl
          | ok u => exact ih tbl (offset + page.length)

/-- C3: the wide-column `DeleteAll` of the later revision. First
conjunct: any filter that does not pin the definition's hash key (here:
any filter with that key removed) fails before touching a row, returning
the `ErrInvalidInput` class error with the table unchanged. Second
conjunct: that error is classified `InvalidInput` by `IsErrInvalidInput`.
Third conjunct: on a pinned filter the implementation coincides with the
spec-worded model — paging through `GetAll` in fixed-size batches of 128,
deleting each returned row individually by primary key, until a page
returns zero rows. -/
theorem dynamoDeleteAll_contract (d : RepoDef) (now : Int)
    (table : List Rec) (filter : Filter) (fuel : Nat) :
    dynamoDeleteAll d now table (removeKey filter d.hashKey) fuel =
      some (.error (errInvalidInput ["range hash key must be provided"]),
        table) ∧
    isErrInvalidInput
      (errInvalidInput ["range hash key must be provided"]) = true ∧
    dynamoDeleteAll d now table filter fuel =
      deleteAllSpecModel d now table filter fuel := by
  refine ⟨?_, rfl, ?_⟩
  · rw [dynamoDeleteAll, lookupKey_removeKey_self]
    rfl
  · rw [dynamoDeleteAll, deleteAllSpecModel]
    by_cases h : (lookupKey filter d.hashKey).isNone
    · simp [h]
    · simp only [h, if_neg, Bool.false_eq_true, if_false]
      exact (specPages_eq d now filter fuel table 0).symm

/-! ## C4 — create semantics of the wide-column `Save` -/

theorem dynamoCreatePayload_hashKey (d : RepoDef) (now : Int)
    (genId : String) (payload : Rec) (v : Val)
    (hkeepK : d.enableTtl = true → d.ttlAttribute ≠ d.hashKey)
    (hv : lookupKey payload d.hashKey = some v) :
    lookupKey (dynamoCreatePayload d now genId payload) d.hashKey =
      some v := by
  unfold dynamoCreatePayload
  have h1 : lookupKey
      (if (lookupKey payload "id").isSome then payload
        else setKey payload "id" (.vStr genId)) d.hashKey = some v := by
    by_cases hid : (lookupKey payload "id").isSome
    · rw [if_pos hid]; exact hv
    · rw [if_neg hid]
      by_cases hhk : d.hashKey = "id"
      · rw [hhk] at hv
        rw [hv] at hid
        exact absurd rfl hid
      · rw [lookupKey_setKey_other payload "id" d.hashKey _ hhk]
        exact hv
  by_cases httl : d.enableTtl
  · rw [if_pos httl,
      lookupKey_setKey_other _ _ _ _ (fun he => hkeepK httl he.symm)]
    exact h1
  · rw [if_neg httl]
    exact h1

theorem dynamoCreatePayload_id_kept (d : RepoDef) (now : Int)
    (genId : String) (payload : Rec) (w : Val)
    (hkeepI : d.enableTtl = true → d.ttlAttribute ≠ "id")
    (hw : lookupKey payload "id" = some w) :
    lookupKey (dynamoCreatePayload d now genId payload) "id" = some w := by
  unfold dynamoCreatePayload
  have hid : (lookupKey payload "id").isSome := by rw [hw]; rfl
  rw [if_pos hid]
  by_cases httl : d.enableTtl
  · rw [if_pos httl,
      lookupKey_setKey_other _ _ _ _ (fun he => hkeepI httl he.symm)]
    exact hw
  · rw [if_neg httl]
    exact hw

theorem dynamoCreatePayload_id_gen (d : RepoDef) (now : Int)
    (genId : String) (payload : Rec)
    (hkeepI : d.enableTtl = true → d.ttlAttribute ≠ "id")
    (hnone : lookupKey payload "id" = none) :
    lookupKey (dynamoCreatePayload d now genId payload) "id" =
      some (.vStr genId) := by
  unfold dynamoCreatePayload
  have hid : ¬ (lookupKey payload "id").isSome = true := by
    rw [hnone]; exact fun h => by cases h
  rw [if_neg hid]
  by_cases httl : d.enableTtl
  · rw [if_pos httl,
      lookupKey_setKey_other _ _ _ _ (fun he => hkeepI httl he.symm),
      lookupKey_setKey_same]
  · rw [if_neg httl, lookupKey_setKey_same]

/-- C4: the create path of the wide-column `Save` (later revision) for a
payload with a manually fixed primary key (hash key pinned to `v`, no
range key in the definition, and — when TTL is enabled — a TTL attribute
distinct from the key and `"id"` fields). A first `Save(obj, nil)` on a
table with no row under that key succeeds and appends exactly the stored
record; the stored record keeps the payload's `"id"` when present and
carries the generated identifier only when the payload had none; and a
second `Save(obj2, nil)` with the same fixed primary key fails with the
`AlreadyExists` class (recognized by `IsErrAlreadyExistis`) rather than
silently overwriting. -/
theorem dynamoSave_create_contract (d : RepoDef) (now : Int)
    (genId genId₂ : String) (table : List Rec) (payload payload₂ : Rec)
    (v : Val)
    (hr : d.rangeKey = "")
    (hkeepK : d.enableTtl = true → d.ttlAttribute ≠ d.hashKey)
    (hkeepI : d.enableTtl = true → d.ttlAttribute ≠ "id")
    (hv : lookupKey payload d.hashKey = some v)
    (hv2 : lookupKey payload₂ d.hashKey = some v)
    (hfresh : ∀ r ∈ table, lookupKey r d.hashKey ≠ some v) :
    ∃ stored,
      dynamoSave d now genId table payload none =
        .ok (stored, table ++ [stored]) ∧
      lookupKey stored d.hashKey = some v ∧
      (∀ w, lookupKey payload "id" = some w →
        lookupKey stored "id" = some w) ∧
      (lookupKey payload "id" = none →
        lookupKey stored "id" = some (.vStr genId)) ∧
      dynamoSave d now genId₂ (table ++ [stored]) payload₂ none =
        .error (errAlreadyExists ["record already exists!"]) ∧
      isErrAlreadyExistis (errAlreadyExists ["record already exists!"]) =
        true := by
  refine ⟨dynamoCreatePayload d now genId payload, ?_, ?_, ?_, ?_, ?_, rfl⟩
  · rw [dynamoSave]
    have hany : table.any
        (samePrimaryKey d (dynamoCreatePayload d now genId payload)) =
        false := by
      rw [List.any_eq_false]
      intro r hrmem
      rw [samePrimaryKey,
        dynamoCreatePayload_hashKey d now genId payload v hkeepK hv, hr]
      cases hlk : lookupKey r d.hashKey with
      | none => simp
      | some w =>
        have hne : (some v : Option Val) ≠ some w := fun he =>
          hfresh r hrmem (hlk.trans he.symm)
        rw [show ((some v : Option Val) == some w) = false from
          beq_eq_false_iff_ne.mpr hne]
        simp
    rw [hany]
    rfl
  · exact dynamoCreatePayload_hashKey d now genId payload v hkeepK hv
  · exact fun w hw =>
      dynamoCreatePayload_id_kept d now genId payload w hkeepI hw
  · exact fun hnone =>
      dynamoCreatePayload_id_gen d now genId payload hkeepI hnone
  · rw [dynamoSave]
    have hany : (table ++ [dynamoCreatePayload d now genId payload]).any
        (samePrimaryKey d (dynamoCreatePayload d now genId₂ payload₂)) =
        true := by
      rw [List.any_eq_true]
      refine ⟨dynamoCreatePayload d now genId payload,
        List.mem_append_right _ (List.mem_singleton.mpr rfl), ?_⟩
      rw [samePrimaryKey,
        dynamoCreatePayload_hashKey d now genId₂ payload₂ v hkeepK hv2,
        dynamoCreatePayload_hashKey d now genId payload v hkeepK hv, hr]
      simp
    rw [hany]
    rfl

/-- Witness for C4: a token repository (hash key `"token"`, no TTL), a
payload without an `"id"`, an empty table, and a second payload pinning
the same token. -/
theorem dynamoSave_create_contract_witness :
    ∃ stored,
      dynamoSave ⟨"tokens", "token", "", false, "", 0, false⟩ 0 "g1" []
          [("token", .vStr "t1")] none = .ok (stored, [] ++ [stored]) ∧
      lookupKey stored "token" = some (.vStr "t1") ∧
      (∀ w, lookupKey [("token", Val.vStr "t1")] "id" = some w →
        lookupKey stored "id" = some w) ∧
      (lookupKey [("token", Val.vStr "t1")] "id" = none →
        lookupKey stored "id" = some (.vStr "g1")) ∧
      dynamoSave ⟨"tokens", "token", "", false, "", 0, false⟩ 0 "g2"
          ([] ++ [stored])
          [("token", .vStr "t1"), ("id", .vStr "fixed")] none =
        .error (errAlreadyExists ["record already exists!"]) ∧
      isErrAlreadyExistis (errAlreadyExists ["record already exists!"]) =
        true :=
  dynamoSave_create_contract ⟨"tokens", "token", "", false, "", 0, false⟩
    0 "g1" "g2" [] [("token", .vStr "t1")]
    [("token", .vStr "t1"), ("id", .vStr "fixed")] (.vStr "t1") rfl
    (fun h => by cases h) (fun h => by cases h) rfl rfl
    (fun r hr => by cases hr)

/-! ## C8 — wide-column pattern compilation lemmas -/

/-- A token character: anything but the `%` wildcard. -/
def tokenChar (c : Char) : Bool :=
  c != '%'

theorem tokenizeLoop_plain (l cur : List Char)
    (hl : l.all tokenChar = true) :
    tokenizeLoop l false cur =
      if cur.reverse ++ l = [] then []
      else [String.mk (cur.reverse ++ l)] := by
  induction l generalizing cur with
  | nil =>
    by_cases hc : cur = []
    · subst hc; rfl
    · have h1 : cur.isEmpty = false := by
        cases cur with
        | nil => exact absurd rfl hc
        | cons a as => rfl
      have h2 : ¬ (cur.reverse ++ ([] : List Char) = []) := by
        rw [List.append_nil]
        intro h
        exact hc (by simpa using congrArg List.reverse h)
      rw [tokenizeLoop, h1, if_neg h2]
      simp
  | cons c rest ih =>
    simp only [List.all_cons, Bool.and_eq_true, tokenChar, bne_iff_ne,
      ne_eq] at hl
    obtain ⟨hc, hrest⟩ := hl
    rw [tokenizeLoop, if_neg hc]
    simp only [Bool.false_eq_true, if_false]
    rw [ih (c :: cur) hrest]
    have hsh : (c :: cur).reverse ++ rest = cur.reverse ++ (c :: rest) := by
      simp
    rw [hsh]

theorem tokenizeLoop_pending (l cur : List Char)
    (hl : l.all tokenChar = true) :
    tokenizeLoop l true cur =
      (if cur.isEmpty then [] else [String.mk cur.reverse]) ++
        (if l = [] then [] else [String.mk l]) := by
  cases l with
  | nil =>
    rw [tokenizeLoop]
    simp
  | cons c rest =>
    simp only [List.all_cons, Bool.and_eq_true, tokenChar, bne_iff_ne,
      ne_eq] at hl
    obtain ⟨hc, hrest⟩ := hl
    rw [tokenizeLoop, if_neg hc, if_pos rfl,
      tokenizeLoop_plain rest [c] hrest]
    have : ([c].reverse ++ rest) = c :: rest := by simp
    rw [this]

theorem tokenizeLoop_trailing (l cur : List Char)
    (hl : l.all tokenChar = true) :
    tokenizeLoop (l ++ ['%']) false cur =
      if cur.reverse ++ l = [] then []
      else [String.mk (cur.reverse ++ l)] := by
  induction l generalizing cur with
  | nil =>
    rw [List.nil_append, tokenizeLoop, if_pos rfl]
    simp only [Bool.false_eq_true, if_false]
    rw [tokenizeLoop]
    by_cases hc : cur = []
    · subst hc; rfl
    · have h1 : cur.isEmpty = false := by
        cases cur with
        | nil => exact absurd rfl hc
        | cons a as => rfl
      have h2 : ¬ (cur.reverse ++ ([] : List Char) = []) := by
        rw [List.append_nil]
        intro h
        exact hc (by simpa using congrArg List.reverse h)
      rw [h1, if_neg h2]
      simp
  | cons c rest ih =>
    simp only [List.all_cons, Bool.and_eq_true, tokenChar, bne_iff_ne,
      ne_eq] at hl
    obtain ⟨hc, hrest⟩ := hl
    rw [List.cons_append, tokenizeLoop, if_neg hc]
    simp only [Bool.false_eq_true, if_false]
    rw [ih (c :: cur) hrest]
    have hsh : (c :: cur).reverse ++ rest = cur.reverse ++ (c :: rest) := by
      simp
    rw [hsh]

theorem tokenizeLoop_pending_trailing (l cur : List Char)
    (hl : l.all tokenChar = true) (hne : l ≠ []) :
    tokenizeLoop (l ++ ['%']) true cur =
      (if cur.isEmpty then [] else [String.mk cur.reverse]) ++
        [String.mk l] := by
  cases l with
  | nil => exact absurd rfl hne
  | cons c rest =>
    simp only [List.all_cons, Bool.and_eq_true, tokenChar, bne_iff_ne,
      ne_eq] at hl
    obtain ⟨hc, hrest⟩ := hl
    rw [List.cons_append, tokenizeLoop, if_neg hc, if_pos rfl,
      tokenizeLoop_trailing rest [c] hrest]
    have : ([c].reverse ++ rest) = c :: rest := by simp
    rw [this]
    simp

theorem hasWildcardLoop_plain (l : List Char)
    (hl : l.all tokenChar = true) :
    hasWildcardLoop l false = false := by
  induction l with
  | nil => rfl
  | cons c rest ih =>
    simp only [List.all_cons, Bool.and_eq_true, tokenChar, bne_iff_ne,
      ne_eq] at hl
    obtain ⟨hc, hrest⟩ := hl
    rw [hasWildcardLoop, if_neg hc]
    simp only [Bool.false_eq_true, if_false]
    exact ih hrest

theorem hasWildcardLoop_pending (l : List Char)
    (hl : l.all tokenChar = true) :
    hasWildcardLoop l true = true := by
  cases l with
  | nil => rfl
  | cons c rest =>
    simp only [List.all_cons, Bool.and_eq_true, tokenChar, bne_iff_ne,
      ne_eq] at hl
    rw [hasWildcardLoop, if_neg hl.1]
    simp

theorem hasWildcardLoop_trailing (l : List Char)
    (hl : l.all tokenChar = true) :
    hasWildcardLoop (l ++ ['%']) false = true := by
  induction l with
  | nil => rfl
  | cons c rest ih =>
    simp only [List.all_cons, Bool.and_eq_true, tokenChar, bne_iff_ne,
      ne_eq] at hl
    obtain ⟨hc, hrest⟩ := hl
    rw [List.cons_append, hasWildcardLoop, if_neg hc]
    simp only [Bool.false_eq_true, if_false]
    exact ih hrest

theorem startsWithWildcardChars_cons_plain (c : Char) (rest : List Char)
    (hc : c ≠ '%') : startsWithWildcardChars (c :: rest) = false := by
  cases rest with
  | nil => simp [startsWithWildcardChars, hc]
  | cons c2 r2 => simp [startsWithWildcardChars, hc]

theorem startsWithWildcardChars_pct (c : Char) (rest : List Char)
    (hc : c ≠ '%') :
    startsWithWildcardChars ('%' :: c :: rest) = true := by
  simp [startsWithWildcardChars, hc]

/-- C8: for every non-empty wildcard-free token `t`, the wide-column
pattern compiler maps `t` to a single `EQUALS` condition on `t`, `t%` to
a single `BEGINS_WITH` on `t`, `%t` and `%t%` each to a single `CONTAINS`
on `t`; and `%%` escapes are unescaped to a literal `%` before being
placed into a condition's value (the closing conjuncts: an escaped
pattern with no real wildcard becomes `EQUALS` on the unescaped literal,
and an escaped `%` inside a `BEGINS_WITH` token stays literal). -/
theorem patternToDynamodbCondition_shapes (t : String)
    (ht : t.toList.all tokenChar = true) (hne : t ≠ "") :
    patternToDynamodbCondition t = [⟨"EQ", t⟩] ∧
    patternToDynamodbCondition (t ++ "%") = [⟨"BEGINS_WITH", t⟩] ∧
    patternToDynamodbCondition ("%" ++ t) = [⟨"CONTAINS", t⟩] ∧
    patternToDynamodbCondition ("%" ++ t ++ "%") = [⟨"CONTAINS", t⟩] ∧
    patternToDynamodbCondition "%%abcd" = [⟨"EQ", "%abcd"⟩] ∧
    patternToDynamodbCondition "a%%b%" = [⟨"BEGINS_WITH", "a%b"⟩] := by
  have hnl : t.toList ≠ [] := by
    intro h
    apply hne
    cases t with
    | mk data =>
      have h2 : data = [] := h
      subst h2
      rfl
  have hmk : String.mk t.toList = t := by
    cases t with
    | mk data => rfl
  obtain ⟨c, rest, hcr⟩ : ∃ c rest, t.toList = c :: rest := by
    cases hq : t.toList with
    | nil => exact absurd hq hnl
    | cons c rest => exact ⟨c, rest, rfl⟩
  have hcplain : c ≠ '%' ∧ rest.all tokenChar = true := by
    rw [hcr] at ht
    simpa [tokenChar, List.all_cons, bne_iff_ne] using ht
  refine ⟨?_, ?_, ?_, ?_, by decide, by decide⟩
  · rw [patternToDynamodbCondition, tokenize, hasWildcard,
      hasWildcardLoop_plain t.toList ht,
      tokenizeLoop_plain t.toList [] ht]
    simp only [List.reverse_nil, List.nil_append, if_neg hnl, hmk,
      Bool.not_false, if_pos]
    rfl
  · have htl : (t ++ "%").toList = t.toList ++ ['%'] := by
      simp [String.toList]
    rw [patternToDynamodbCondition, tokenize, hasWildcard, htl,
      hasWildcardLoop_trailing t.toList ht,
      tokenizeLoop_trailing t.toList [] ht]
    simp only [List.reverse_nil, List.nil_append, if_neg hnl, hmk,
      Bool.not_true, Bool.false_eq_true, if_false]
    rw [startsWithWildcard, htl, hcr, List.cons_append,
      startsWithWildcardChars_cons_plain c (rest ++ ['%']) hcplain.1]
    rfl
  · have htl : ("%" ++ t).toList = '%' :: t.toList := by
      simp [String.toList]
    rw [patternToDynamodbCondition, tokenize, hasWildcard, htl,
      hasWildcardLoop, if_pos rfl]
    simp only [Bool.false_eq_true, if_false]
    rw [hasWildcardLoop_pending t.toList ht,
      tokenizeLoop, if_pos rfl]
    simp only [Bool.false_eq_true, if_false]
    rw [tokenizeLoop_pending t.toList [] ht]
    simp only [List.isEmpty_nil, if_pos, List.nil_append, if_neg hnl, hmk,
      Bool.not_true, Bool.false_eq_true, if_false]
    rw [startsWithWildcard, htl, hcr,
      startsWithWildcardChars_pct c rest hcplain.1]
    rfl
  · have htl : ("%" ++ t ++ "%").toList = '%' :: (t.toList ++ ['%']) := by
      simp [String.toList]
    rw [patternToDynamodbCondition, tokenize, hasWildcard, htl,
      hasWildcardLoop, if_pos rfl]
    simp only [Bool.false_eq_true, if_false]
    rw [hcr, List.cons_append, hasWildcardLoop, if_neg hcplain.1]
    simp only [if_pos]
    rw [tokenizeLoop, if_pos rfl]
    simp only [Bool.false_eq_true, if_false]
    rw [← List.cons_append, ← hcr,
      tokenizeLoop_pending_trailing t.toList [] ht hnl]
    simp only [List.isEmpty_nil, if_pos, List.nil_append, hmk,
      Bool.not_true, Bool.false_eq_true, if_false]
    rw [startsWithWildcard, htl, hcr, List.cons_append,
      startsWithWildcardChars_pct c (rest ++ ['%']) hcplain.1]
    rfl

/-- Witness for C8 at the test suite's own token `"abcd"`. -/
theorem patternToDynamodbCondition_shapes_witness :
    patternToDynamodbCondition "abcd" = [⟨"EQ", "abcd"⟩] ∧
    patternToDynamodbCondition ("abcd" ++ "%") =
      [⟨"BEGINS_WITH", "abcd"⟩] ∧
    patternToDynamodbCondition ("%" ++ "abcd") = [⟨"CONTAINS", "abcd"⟩] ∧
    patternToDynamodbCondition ("%" ++ "abcd" ++ "%") =
      [⟨"CONTAINS", "abcd"⟩] ∧
    patternToDynamodbCondition "%%abcd" = [⟨"EQ", "%abcd"⟩] ∧
    patternToDynamodbCondition "a%%b%" = [⟨"BEGINS_WITH", "a%b"⟩] :=
  patternToDynamodbCondition_shapes "abcd" (by decide) (by decide)

end Backends
